import Mathlib

/-
  Verification of the Game Boy printer emulator core
  (gb-archive/arduino-gameboy-printer-emulator, gbp_emulator_v2).

  The repository's sketch `gbp_emulator_v2.ino` drives three library modules
  (gbp_pkt, gbp_serial_io, gameboy_printer_protocol) whose sources are not part
  of the available material; those modules are modelled here from the
  specification.  The raw packet-capture loop `gbp_packet_capture_loop` is
  embedded directly from the sketch source.
-/

/- ## Packet parser (gbp_pkt) -/

/-- Modelled from the spec: the framing states of `gbp_pkt_processByte`
(spec section 4.3), `AWAIT_SYNC_0 → AWAIT_SYNC_1 → COMMAND → COMPRESSION →
LENGTH_LOW → LENGTH_HIGH → PAYLOAD → CHECKSUM_LOW → CHECKSUM_HIGH → KEEPALIVE`.
The implementation of `gbp_pkt.h` is not in the available sources. -/
inductive GbpPktState
  | awaitSync0
  | awaitSync1
  | command
  | compression
  | lengthLow
  | lengthHigh
  | payloadB
  | checksumLow
  | checksumHigh
  | keepalive
  deriving DecidableEq, Repr

/-- Modelled from the spec: the in-flight `Packet` plus parser bookkeeping
(spec section 3, "Packet", and section 4.3).  `status` is the 8-bit status
field; bit 4 is the packet-error bit and bit 0 the checksum-error bit,
following the order given in spec section 3 (low-battery, two generic error
bits, packet-error, unprocessed-data, buffer-full, busy, checksum-error,
from bit 7 down to bit 0). -/
structure GbpPkt where
  state : GbpPktState
  command : Nat
  compression : Bool
  payloadLength : Nat
  payloadIdx : Nat
  payload : List Nat
  checksum : Nat
  chkLow : Nat
  status : Nat
  checksumOk : Bool
  deriving DecidableEq, Repr

/-- Modelled from the spec: initial parser state (`gbp_pkt_init`). -/
def gbp_pkt_init : GbpPkt :=
  { state := .awaitSync0, command := 0, compression := false,
    payloadLength := 0, payloadIdx := 0, payload := [],
    checksum := 0, chkLow := 0, status := 0, checksumOk := true }

/-- The two fixed synchronization bytes (spec section 8 example: 0x88 0x33). -/
def GBP_SYNC_BYTE_0 : Nat := 0x88

/-- Second synchronization byte. -/
def GBP_SYNC_BYTE_1 : Nat := 0x33

/-- Modelled from the spec: one step of the packet framing state machine,
`gbp_pkt_processByte` (spec section 4.3).  `cap` is the configured payload
storage capacity (`sizeof(gbp_pktbuff)` at the call site in the sketch).
Returns the updated parser and `true` exactly when a packet transitions to
ready on this call.
* Sync bytes must match exactly; a mismatch restarts the search, re-testing
  the failing byte as a candidate first sync byte.
* The running checksum is the 16-bit wrapping sum of every byte from COMMAND
  through the last PAYLOAD byte.
* Payload bytes beyond `cap` are consumed but not stored and set the
  packet-error status bit (bit 4, mask 0x10).
* A checksum mismatch sets `checksumOk := false` and the checksum-error
  status bit (bit 0, mask 0x01); the packet is still surfaced.
* The keepalive byte is consumed without validation and completes the
  packet. -/
def gbp_pkt_processByte (cap : Nat) (p : GbpPkt) (b : Nat) : GbpPkt × Bool :=
  match p.state with
  | .awaitSync0 =>
      if b = GBP_SYNC_BYTE_0 then ({ p with state := .awaitSync1 }, false)
      else ({ p with state := .awaitSync0 }, false)
  | .awaitSync1 =>
      if b = GBP_SYNC_BYTE_1 then
        ({ p with state := .command, payload := [], payloadIdx := 0,
                  checksum := 0, status := 0, checksumOk := true }, false)
      else if b = GBP_SYNC_BYTE_0 then ({ p with state := .awaitSync1 }, false)
      else ({ p with state := .awaitSync0 }, false)
  | .command =>
      ({ p with state := .compression, command := b, checksum := b % 65536 }, false)
  | .compression =>
      ({ p with state := .lengthLow, compression := decide (b % 2 = 1),
                checksum := (p.checksum + b) % 65536 }, false)
  | .lengthLow =>
      ({ p with state := .lengthHigh, payloadLength := b,
                checksum := (p.checksum + b) % 65536 }, false)
  | .lengthHigh =>
      let len := (p.payloadLength + 256 * b) % 65536
      ({ p with state := if len = 0 then .checksumLow else .payloadB,
                payloadLength := len, payloadIdx := 0,
                checksum := (p.checksum + b) % 65536 }, false)
  | .payloadB =>
      ({ p with state := if p.payloadIdx + 1 = p.payloadLength then .checksumLow else .payloadB,
                payload := if p.payloadIdx < cap then p.payload ++ [b] else p.payload,
                status := if p.payloadIdx < cap then p.status else p.status ||| 0x10,
                payloadIdx := p.payloadIdx + 1,
                checksum := (p.checksum + b) % 65536 }, false)
  | .checksumLow =>
      ({ p with state := .checksumHigh, chkLow := b }, false)
  | .checksumHigh =>
      let received := (p.chkLow + 256 * b) % 65536
      ({ p with state := .keepalive,
                checksumOk := decide (received = p.checksum),
                status := if received = p.checksum then p.status else p.status ||| 0x01 }, false)
  | .keepalive =>
      ({ p with state := .awaitSync0 }, true)

/-- Feed a list of bytes to the parser, one `gbp_pkt_processByte` call per
byte, keeping only the parser state (as the sketch's
`gbp_parse_packet_loop` does across polling iterations). -/
def gbp_pkt_feed (cap : Nat) (p : GbpPkt) (bs : List Nat) : GbpPkt :=
  bs.foldl (fun q b => (gbp_pkt_processByte cap q b).1) p

/-- Feed a list of polling-iteration chunks, each chunk fed byte-by-byte. -/
def gbp_pkt_feedChunks (cap : Nat) (p : GbpPkt) (cs : List (List Nat)) : GbpPkt :=
  cs.foldl (gbp_pkt_feed cap) p

/-- Modelled from the spec: the command enumeration of `Packet.command`
(spec section 3).  The sketch compares the raw command byte against named
constants from the missing header `gameboy_printer_protocol.h`; of their
numeric values only DATA = 0x02 appears in the available material (spec
section 8 example), so every other byte value is decoded as UNKNOWN here. -/
inductive GbpCommandKind
  | INIT
  | PRINT
  | DATA
  | BREAK
  | INQUIRY
  | UNKNOWN
  deriving DecidableEq, Repr

/-- Modelled from the spec: decode of the raw command byte carried in the
Packet (spec sections 3 and 4.3; only DATA = 0x02 is fixed by the spec). -/
def gbpCommand_decode (b : Nat) : GbpCommandKind :=
  if b = 0x02 then .DATA else .UNKNOWN

theorem gbp_pkt_feed_nil (cap : Nat) (p : GbpPkt) : gbp_pkt_feed cap p [] = p := rfl

theorem gbp_pkt_feed_cons (cap : Nat) (p : GbpPkt) (b : Nat) (bs : List Nat) :
    gbp_pkt_feed cap p (b :: bs) = gbp_pkt_feed cap (gbp_pkt_processByte cap p b).1 bs := rfl

theorem gbp_pkt_feed_append (cap : Nat) (p : GbpPkt) (xs ys : List Nat) :
    gbp_pkt_feed cap p (xs ++ ys) = gbp_pkt_feed cap (gbp_pkt_feed cap p xs) ys := by
  simp [gbp_pkt_feed, List.foldl_append]

/-- C2: for every byte sequence, feeding the bytes to the packet parser one
call per byte across arbitrarily many polling iterations produces the same
observable final Packet as feeding the whole sequence in a single iteration
(parser state persists between calls), and `process_byte` returns true
exactly on the call at which a Packet transitions to ready (the call that
consumes the keepalive byte). -/
theorem gbp_pkt_feed_resumable (cap : Nat) :
    (∀ (p : GbpPkt) (cs : List (List Nat)),
        gbp_pkt_feedChunks cap p cs = gbp_pkt_feed cap p cs.flatten)
    ∧ (∀ (p : GbpPkt) (b : Nat),
        (gbp_pkt_processByte cap p b).2 = true ↔ p.state = .keepalive) := by
  constructor
  · intro p cs
    induction cs generalizing p with
    | nil => rfl
    | cons c cs ih =>
        simp only [gbp_pkt_feedChunks, List.foldl_cons, List.flatten_cons,
          gbp_pkt_feed_append]
        exact ih (gbp_pkt_feed cap p c)
  · intro p b
    cases h : p.state <;> simp only [gbp_pkt_processByte, h] <;>
      first
        | (split_ifs <;> simp)
        | simp

theorem gbp_pkt_feed_payload_run (cap : Nat) (ys : List Nat) : ∀ (p : GbpPkt),
    p.state = .payloadB → p.payloadIdx + ys.length ≤ p.payloadLength →
    p.checksum < 65536 →
    gbp_pkt_feed cap p ys =
      { p with
        state := if p.payloadIdx + ys.length = p.payloadLength ∧ 0 < ys.length
                 then .checksumLow else .payloadB,
        payload := p.payload ++ ys.take (cap - p.payloadIdx),
        payloadIdx := p.payloadIdx + ys.length,
        checksum := (p.checksum + ys.sum) % 65536,
        status := if cap < p.payloadIdx + ys.length ∧ 0 < ys.length
                  then p.status ||| 0x10 else p.status } := by
  induction ys with
  | nil =>
      intro p hs hle hck
      obtain ⟨st, cmd, cp, plen, pidx, pl, ck, cl, stt, cok⟩ := p
      simp only at hs
      subst hs
      simp [gbp_pkt_feed_nil, Nat.mod_eq_of_lt hck]
  | cons b bs ih =>
      intro p hs hle hck
      obtain ⟨st, cmd, cp, plen, pidx, pl, ck, cl, stt, cok⟩ := p
      simp only at hs hle hck ⊢
      subst hs
      rw [gbp_pkt_feed_cons]
      simp only [gbp_pkt_processByte]
      by_cases hlast : pidx + 1 = plen
      · have hbs : bs = [] := by
          cases bs with
          | nil => rfl
          | cons c cs => simp only [List.length_cons] at hle; omega
        subst hbs
        simp only [hlast, if_pos rfl]
        rw [gbp_pkt_feed_nil, GbpPkt.mk.injEq]
        refine ⟨?_, rfl, rfl, rfl, ?_, ?_, ?_, rfl, ?_, rfl⟩
        · have h1 : pidx + [b].length = plen ∧ 0 < [b].length := by
            simp only [List.length_cons, List.length_nil]; omega
          rw [if_pos h1]; simp
        · simp only [List.length_cons, List.length_nil]; omega
        · by_cases hpc : pidx < cap
          · have h1 : cap - pidx = (cap - (pidx + 1)) + 1 := by omega
            simp [hpc, h1]
          · have h1 : cap - pidx = 0 := by omega
            simp [hpc, h1]
        · simp
        · by_cases hpc : pidx < cap
          · have h1 : ¬ (cap < pidx + [b].length ∧ 0 < [b].length) := by
              simp only [List.length_cons, List.length_nil]; omega
            rw [if_pos hpc, if_neg h1]
          · have h1 : cap < pidx + [b].length ∧ 0 < [b].length := by
              simp only [List.length_cons, List.length_nil]
              exact ⟨by omega, by omega⟩
            rw [if_neg hpc, if_pos h1]
      · simp only [if_neg hlast]
        have hle' : pidx + 1 + bs.length ≤ plen := by
          simp only [List.length_cons] at hle; omega
        have hck' : (ck + b) % 65536 < 65536 := Nat.mod_lt _ (by omega)
        rw [ih _ rfl hle' hck']
        rw [GbpPkt.mk.injEq]
        refine ⟨?_, rfl, rfl, rfl, ?_, ?_, ?_, rfl, ?_, rfl⟩
        · simp only [List.length_cons]
          by_cases hz : bs.length = 0
          · have h1 : ¬ (pidx + 1 + bs.length = plen ∧ 0 < bs.length) := by omega
            have h2 : ¬ (pidx + (bs.length + 1) = plen ∧ 0 < bs.length + 1) := by omega
            rw [if_neg h1, if_neg h2]
          · have h1 : (pidx + 1 + bs.length = plen ∧ 0 < bs.length) ↔
                (pidx + (bs.length + 1) = plen ∧ 0 < bs.length + 1) := by omega
            rw [if_congr h1 rfl rfl]
        · simp only [List.length_cons]; omega
        · by_cases hpc : pidx < cap
          · have h1 : cap - pidx = (cap - (pidx + 1)) + 1 := by omega
            simp [hpc, h1, List.append_assoc]
          · have h1 : cap - pidx = 0 := by omega
            have h2 : cap - (pidx + 1) = 0 := by omega
            simp [hpc, h1, h2]
        · simp only [Nat.mod_add_mod, List.sum_cons]
          ring_nf
        · simp only [List.length_cons]
          by_cases hpc : pidx < cap
          · by_cases hco : cap < pidx + 1 + bs.length ∧ 0 < bs.length
            · have h2 : cap < pidx + (bs.length + 1) ∧ 0 < bs.length + 1 := by omega
              rw [if_pos hpc, if_pos hco, if_pos h2]
            · have h2 : ¬ (cap < pidx + (bs.length + 1) ∧ 0 < bs.length + 1) := by omega
              rw [if_pos hpc, if_neg hco, if_neg h2]
          · have h2 : cap < pidx + (bs.length + 1) ∧ 0 < bs.length + 1 := by
              exact ⟨by omega, by omega⟩
            rw [if_neg hpc, if_pos h2]
            by_cases hco : cap < pidx + 1 + bs.length ∧ 0 < bs.length
            · rw [if_pos hco, Nat.or_assoc, Nat.or_self]
            · rw [if_neg hco]

/-- The 16-bit wrapping checksum of a frame: sum of the bytes from COMMAND
through the last PAYLOAD byte (command, compression, the two length bytes,
then the payload), modulo 65536 (spec section 6). -/
def gbpFrameChecksum (cmd comp : Nat) (payload : List Nat) : Nat :=
  (cmd + comp + payload.length % 256 + payload.length / 256 + payload.sum) % 65536

/-- The status byte the modelled parser computes for a frame transmitted
with checksum bytes `clo`/`chi`: packet-error bit (0x10) when the declared
length exceeds the storage capacity, checksum-error bit (0x01) when the
transmitted checksum differs from the running sum. -/
def gbpFrameStatus (cap clo chi cmd comp : Nat) (payload : List Nat) : Nat :=
  (if cap < payload.length then 0x10 else 0) |||
  (if (clo + 256 * chi) % 65536 = gbpFrameChecksum cmd comp payload then 0 else 0x01)

/-- The Packet the modelled parser surfaces after a full frame. -/
def gbpFramePacket (cap cmd comp clo chi : Nat) (payload : List Nat) : GbpPkt :=
  { state := .awaitSync0, command := cmd, compression := decide (comp % 2 = 1),
    payloadLength := payload.length, payloadIdx := payload.length,
    payload := payload.take cap,
    checksum := gbpFrameChecksum cmd comp payload,
    chkLow := clo,
    status := gbpFrameStatus cap clo chi cmd comp payload,
    checksumOk := decide ((clo + 256 * chi) % 65536 = gbpFrameChecksum cmd comp payload) }

/-- A full wire frame except for its trailing keepalive byte:
`SYNC0 SYNC1 COMMAND COMPRESSION LEN_LO LEN_HI PAYLOAD CHK_LO CHK_HI`
(spec section 6). -/
def gbpFrameBytesNoKa (cmd comp clo chi : Nat) (payload : List Nat) : List Nat :=
  [GBP_SYNC_BYTE_0, GBP_SYNC_BYTE_1, cmd, comp,
   payload.length % 256, payload.length / 256] ++ payload ++ [clo, chi]

theorem gbp_pkt_frame_run (cap cmd comp clo chi ka : Nat) (payload : List Nat) (p : GbpPkt)
    (hstart : p.state = .awaitSync0 ∨ p.state = .awaitSync1)
    (hlen : payload.length < 65536) :
    gbp_pkt_processByte cap
      (gbp_pkt_feed cap p (gbpFrameBytesNoKa cmd comp clo chi payload)) ka
      = (gbpFramePacket cap cmd comp clo chi payload, true) := by
  obtain ⟨st, cmd0, cp0, plen0, pidx0, pl0, ck0, cl0, stt0, cok0⟩ := p
  have hlen2 : (payload.length % 256 + 256 * (payload.length / 256)) % 65536
      = payload.length := by
    rw [Nat.mod_add_div]
    exact Nat.mod_eq_of_lt hlen
  have hheader : gbp_pkt_feed cap ⟨st, cmd0, cp0, plen0, pidx0, pl0, ck0, cl0, stt0, cok0⟩
      [GBP_SYNC_BYTE_0, GBP_SYNC_BYTE_1, cmd, comp,
        payload.length % 256, payload.length / 256]
      = ⟨if payload.length = 0 then .checksumLow else .payloadB, cmd,
          decide (comp % 2 = 1), payload.length, 0, [],
          (cmd + comp + payload.length % 256 + payload.length / 256) % 65536,
          cl0, 0, true⟩ := by
    rcases hstart with h | h <;> simp only at h <;> subst h <;>
      simp [gbp_pkt_feed, gbp_pkt_processByte, GBP_SYNC_BYTE_0, GBP_SYNC_BYTE_1, hlen2]
  rw [gbpFrameBytesNoKa, gbp_pkt_feed_append, gbp_pkt_feed_append, hheader]
  by_cases hz : payload.length = 0
  · have hpl : payload = [] := List.length_eq_zero.mp hz
    subst hpl
    simp [gbp_pkt_feed, gbp_pkt_processByte, gbpFramePacket, gbpFrameStatus,
      gbpFrameChecksum]
  · have hrun := gbp_pkt_feed_payload_run cap payload
      ⟨.payloadB, cmd, decide (comp % 2 = 1), payload.length, 0, [],
        (cmd + comp + payload.length % 256 + payload.length / 256) % 65536,
        cl0, 0, true⟩ rfl (by simp) (Nat.mod_lt _ (by omega))
    simp only [if_neg hz]
    rw [hrun]
    have hpos : 0 < payload.length := Nat.pos_of_ne_zero hz
    by_cases hok : (clo + 256 * chi) % 65536
        = (cmd + comp + payload.length % 256 + payload.length / 256 + payload.sum) % 65536 <;>
      by_cases hcap : cap < payload.length <;>
        simp [hpos, hok, hcap, gbp_pkt_feed, gbp_pkt_processByte, gbpFramePacket,
          gbpFrameStatus, gbpFrameChecksum]

/-- Parse one complete wire frame from a clean parser: feed every frame byte
up to the checksum, then process the keepalive byte `ka`. -/
def gbp_pkt_parseFrame (cap cmd comp clo chi ka : Nat) (payload : List Nat) : GbpPkt × Bool :=
  gbp_pkt_processByte cap
    (gbp_pkt_feed cap gbp_pkt_init (gbpFrameBytesNoKa cmd comp clo chi payload)) ka

theorem gbp_pkt_parseFrame_eq (cap cmd comp clo chi ka : Nat) (payload : List Nat)
    (hlen : payload.length < 65536) :
    gbp_pkt_parseFrame cap cmd comp clo chi ka payload
      = (gbpFramePacket cap cmd comp clo chi payload, true) :=
  gbp_pkt_frame_run cap cmd comp clo chi ka payload gbp_pkt_init (Or.inl rfl) hlen

theorem gbpFrameChecksum_lt (cmd comp : Nat) (payload : List Nat) :
    gbpFrameChecksum cmd comp payload < 65536 :=
  Nat.mod_lt _ (by omega)

/-- C1: feeding a well-formed frame (sync, command, compression, little-endian
length, payload, correct little-endian 16-bit wrapping checksum over COMMAND
through the last payload byte, keepalive) to the packet parser yields a ready
Packet with `checksum_ok = true`, the command byte carried into the Packet,
the stored payload equal to the frame payload, and a clear status byte; in
particular the concrete frame 88 33 02 01 04 00 00 00 00 00 07 00 00 yields
command DATA, compression true, checksum_ok true. -/
theorem gbp_pkt_valid_frame_parses (cap cmd comp ka : Nat) (payload : List Nat)
    (hlen : payload.length < 65536) (hcap : payload.length ≤ cap) :
    (gbp_pkt_parseFrame cap cmd comp (gbpFrameChecksum cmd comp payload % 256)
        (gbpFrameChecksum cmd comp payload / 256) ka payload
      = ({ state := .awaitSync0, command := cmd, compression := decide (comp % 2 = 1),
           payloadLength := payload.length, payloadIdx := payload.length,
           payload := payload, checksum := gbpFrameChecksum cmd comp payload,
           chkLow := gbpFrameChecksum cmd comp payload % 256, status := 0,
           checksumOk := true }, true))
    ∧ ((gbp_pkt_parseFrame 640 0x02 0x01 0x07 0x00 0x00 [0x00, 0x00, 0x00, 0x00]).2 = true
        ∧ gbpCommand_decode
            (gbp_pkt_parseFrame 640 0x02 0x01 0x07 0x00 0x00 [0x00, 0x00, 0x00, 0x00]).1.command
            = .DATA
        ∧ (gbp_pkt_parseFrame 640 0x02 0x01 0x07 0x00 0x00 [0x00, 0x00, 0x00, 0x00]).1.compression
            = true
        ∧ (gbp_pkt_parseFrame 640 0x02 0x01 0x07 0x00 0x00 [0x00, 0x00, 0x00, 0x00]).1.checksumOk
            = true) := by
  constructor
  · rw [gbp_pkt_parseFrame_eq cap cmd comp _ _ ka payload hlen]
    have hchk : (gbpFrameChecksum cmd comp payload % 256
        + 256 * (gbpFrameChecksum cmd comp payload / 256)) % 65536
        = gbpFrameChecksum cmd comp payload := by
      rw [Nat.mod_add_div]
      exact Nat.mod_eq_of_lt (gbpFrameChecksum_lt cmd comp payload)
    simp [gbpFramePacket, gbpFrameStatus, hchk, List.take_of_length_le hcap,
      Nat.not_lt.mpr hcap]
  · refine ⟨by decide, by decide, by decide, by decide⟩

/-- C1 witness: the general part of `gbp_pkt_valid_frame_parses` applied to a
concrete frame (capacity 8, command 1, compression 0, payload [5, 6]). -/
theorem gbp_pkt_valid_frame_parses_witness :
    ([5, 6].length < 65536 ∧ [5, 6].length ≤ 8)
    ∧ gbp_pkt_parseFrame 8 1 0 (gbpFrameChecksum 1 0 [5, 6] % 256)
        (gbpFrameChecksum 1 0 [5, 6] / 256) 0 [5, 6]
      = ({ state := .awaitSync0, command := 1, compression := decide (0 % 2 = 1),
           payloadLength := [5, 6].length, payloadIdx := [5, 6].length,
           payload := [5, 6], checksum := gbpFrameChecksum 1 0 [5, 6],
           chkLow := gbpFrameChecksum 1 0 [5, 6] % 256, status := 0,
           checksumOk := true }, true) :=
  ⟨⟨by decide, by decide⟩,
    (gbp_pkt_valid_frame_parses 8 1 0 0 [5, 6] (by decide) (by decide)).1⟩

/-- C3: a complete frame whose transmitted 16-bit checksum (low byte `clo`,
high byte `chi`) differs from the running sum over COMMAND through the last
payload byte still surfaces a ready Packet — not discarded — with
`checksum_ok = false` and the checksum-error status bit (bit 0) set, while
command, compression, payload_length and the stored payload bytes are
identical to what the uncorrupted frame yields. -/
theorem gbp_pkt_corrupt_checksum_flagged (cap cmd comp clo chi ka : Nat) (payload : List Nat)
    (hlen : payload.length < 65536) (hclo : clo < 256) (hchi : chi < 256)
    (hbad : clo + 256 * chi ≠ gbpFrameChecksum cmd comp payload) :
    (gbp_pkt_parseFrame cap cmd comp clo chi ka payload).2 = true
    ∧ (gbp_pkt_parseFrame cap cmd comp clo chi ka payload).1.checksumOk = false
    ∧ Nat.testBit (gbp_pkt_parseFrame cap cmd comp clo chi ka payload).1.status 0 = true
    ∧ (gbp_pkt_parseFrame cap cmd comp clo chi ka payload).1.command
        = (gbp_pkt_parseFrame cap cmd comp (gbpFrameChecksum cmd comp payload % 256)
            (gbpFrameChecksum cmd comp payload / 256) ka payload).1.command
    ∧ (gbp_pkt_parseFrame cap cmd comp clo chi ka payload).1.compression
        = (gbp_pkt_parseFrame cap cmd comp (gbpFrameChecksum cmd comp payload % 256)
            (gbpFrameChecksum cmd comp payload / 256) ka payload).1.compression
    ∧ (gbp_pkt_parseFrame cap cmd comp clo chi ka payload).1.payloadLength
        = (gbp_pkt_parseFrame cap cmd comp (gbpFrameChecksum cmd comp payload % 256)
            (gbpFrameChecksum cmd comp payload / 256) ka payload).1.payloadLength
    ∧ (gbp_pkt_parseFrame cap cmd comp clo chi ka payload).1.payload
        = (gbp_pkt_parseFrame cap cmd comp (gbpFrameChecksum cmd comp payload % 256)
            (gbpFrameChecksum cmd comp payload / 256) ka payload).1.payload := by
  have hrec : (clo + 256 * chi) % 65536 = clo + 256 * chi :=
    Nat.mod_eq_of_lt (by omega)
  rw [gbp_pkt_parseFrame_eq cap cmd comp clo chi ka payload hlen,
    gbp_pkt_parseFrame_eq cap cmd comp _ _ ka payload hlen]
  refine ⟨rfl, ?_, ?_, rfl, rfl, rfl, rfl⟩
  · simp [gbpFramePacket, hrec, hbad]
  · simp only [gbpFramePacket, gbpFrameStatus, hrec, if_neg hbad]
    by_cases hcap : cap < payload.length
    · rw [if_pos hcap]; decide
    · rw [if_neg hcap]; decide

/-- C3 witness: `gbp_pkt_corrupt_checksum_flagged` at a concrete corrupted
frame (capacity 8, command 1, compression 0, payload [5, 6], transmitted
checksum 0x0009 instead of the correct 0x000C). -/
theorem gbp_pkt_corrupt_checksum_flagged_witness :
    ([5, 6].length < 65536 ∧ (9 : Nat) < 256 ∧ (0 : Nat) < 256
      ∧ 9 + 256 * 0 ≠ gbpFrameChecksum 1 0 [5, 6])
    ∧ ((gbp_pkt_parseFrame 8 1 0 9 0 0 [5, 6]).2 = true
        ∧ (gbp_pkt_parseFrame 8 1 0 9 0 0 [5, 6]).1.checksumOk = false
        ∧ Nat.testBit (gbp_pkt_parseFrame 8 1 0 9 0 0 [5, 6]).1.status 0 = true) :=
  ⟨⟨by decide, by decide, by decide, by decide⟩,
    ⟨(gbp_pkt_corrupt_checksum_flagged 8 1 0 9 0 0 [5, 6] (by decide) (by decide)
        (by decide) (by decide)).1,
     (gbp_pkt_corrupt_checksum_flagged 8 1 0 9 0 0 [5, 6] (by decide) (by decide)
        (by decide) (by decide)).2.1,
     (gbp_pkt_corrupt_checksum_flagged 8 1 0 9 0 0 [5, 6] (by decide) (by decide)
        (by decide) (by decide)).2.2.1⟩⟩

/-- C8: a frame whose declared payload length exceeds the configured payload
storage capacity still completes: all `payload_length` payload bytes are
consumed (the checksum bytes and keepalive that follow are interpreted in
their proper positions, so the Packet goes ready on the keepalive and its
checksum verdict compares exactly the transmitted checksum bytes), only the
first `cap` bytes are stored (truncated view), and the packet-error status
bit (bit 4) is set; the packet is delivered rather than rejected. -/
theorem gbp_pkt_oversized_payload_truncated (cap cmd comp clo chi ka : Nat) (payload : List Nat)
    (hlen : payload.length < 65536) (hover : cap < payload.length) :
    (gbp_pkt_parseFrame cap cmd comp clo chi ka payload).2 = true
    ∧ (gbp_pkt_parseFrame cap cmd comp clo chi ka payload).1.payloadIdx = payload.length
    ∧ (gbp_pkt_parseFrame cap cmd comp clo chi ka payload).1.payloadLength = payload.length
    ∧ (gbp_pkt_parseFrame cap cmd comp clo chi ka payload).1.payload = payload.take cap
    ∧ Nat.testBit (gbp_pkt_parseFrame cap cmd comp clo chi ka payload).1.status 4 = true
    ∧ (gbp_pkt_parseFrame cap cmd comp clo chi ka payload).1.checksumOk
        = decide ((clo + 256 * chi) % 65536 = gbpFrameChecksum cmd comp payload) := by
  rw [gbp_pkt_parseFrame_eq cap cmd comp clo chi ka payload hlen]
  refine ⟨rfl, rfl, rfl, rfl, ?_, rfl⟩
  simp only [gbpFramePacket, gbpFrameStatus, if_pos hover]
  by_cases hok : (clo + 256 * chi) % 65536 = gbpFrameChecksum cmd comp payload
  · rw [if_pos hok]; decide
  · rw [if_neg hok]; decide

/-- C8 witness: `gbp_pkt_oversized_payload_truncated` with capacity 2 and a
4-byte payload. -/
theorem gbp_pkt_oversized_payload_truncated_witness :
    ([5, 6, 7, 8].length < 65536 ∧ 2 < [5, 6, 7, 8].length)
    ∧ ((gbp_pkt_parseFrame 2 1 0 3 0 0 [5, 6, 7, 8]).2 = true
        ∧ (gbp_pkt_parseFrame 2 1 0 3 0 0 [5, 6, 7, 8]).1.payloadIdx = [5, 6, 7, 8].length
        ∧ (gbp_pkt_parseFrame 2 1 0 3 0 0 [5, 6, 7, 8]).1.payload = [5, 6, 7, 8].take 2
        ∧ Nat.testBit (gbp_pkt_parseFrame 2 1 0 3 0 0 [5, 6, 7, 8]).1.status 4 = true) :=
  ⟨⟨by decide, by decide⟩,
    ⟨(gbp_pkt_oversized_payload_truncated 2 1 0 3 0 0 [5, 6, 7, 8] (by decide) (by decide)).1,
     (gbp_pkt_oversized_payload_truncated 2 1 0 3 0 0 [5, 6, 7, 8] (by decide) (by decide)).2.1,
     (gbp_pkt_oversized_payload_truncated 2 1 0 3 0 0 [5, 6, 7, 8] (by decide) (by decide)).2.2.2.1,
     (gbp_pkt_oversized_payload_truncated 2 1 0 3 0 0 [5, 6, 7, 8] (by decide) (by decide)).2.2.2.2.1⟩⟩

/-- A byte list that never contains the sync pair 0x88 0x33 at adjacent
positions (no valid frame start inside it). -/
def GbpSyncFree (g : List Nat) : Prop :=
  List.Chain' (fun a b => ¬(a = GBP_SYNC_BYTE_0 ∧ b = GBP_SYNC_BYTE_1)) g

theorem gbp_pkt_feed_syncFree (cap : Nat) : ∀ (g : List Nat) (p : GbpPkt),
    (p.state = .awaitSync0 ∨ (p.state = .awaitSync1 ∧ ∀ x ∈ g.head?, x ≠ GBP_SYNC_BYTE_1)) →
    GbpSyncFree g →
    (gbp_pkt_feed cap p g).state = .awaitSync0 ∨ (gbp_pkt_feed cap p g).state = .awaitSync1 := by
  intro g
  induction g with
  | nil =>
      intro p hp _
      rw [gbp_pkt_feed_nil]
      rcases hp with h | ⟨h, _⟩
      · exact Or.inl h
      · exact Or.inr h
  | cons b rest ih =>
      intro p hp hfree
      rw [gbp_pkt_feed_cons]
      have hfree' : GbpSyncFree rest := (List.chain'_cons'.mp hfree).2
      have hhead : b = GBP_SYNC_BYTE_0 → ∀ x ∈ rest.head?, x ≠ GBP_SYNC_BYTE_1 := by
        intro hb x hx hx1
        exact (List.chain'_cons'.mp hfree).1 x hx ⟨hb, hx1⟩
      rcases hp with h | ⟨h, hne⟩
      · by_cases hb : b = GBP_SYNC_BYTE_0
        · exact ih _ (Or.inr ⟨by simp [gbp_pkt_processByte, h, hb], hhead hb⟩) hfree'
        · exact ih _ (Or.inl (by simp [gbp_pkt_processByte, h, hb])) hfree'
      · have hb1 : b ≠ GBP_SYNC_BYTE_1 := hne b rfl
        by_cases hb : b = GBP_SYNC_BYTE_0
        · exact ih _ (Or.inr ⟨by
            simp [gbp_pkt_processByte, h, hb1, hb, GBP_SYNC_BYTE_0, GBP_SYNC_BYTE_1],
            hhead hb⟩) hfree'
        · exact ih _ (Or.inl (by simp [gbp_pkt_processByte, h, hb1, hb])) hfree'

theorem gbp_pkt_sync_step_false (cap : Nat) (p : GbpPkt) (b : Nat)
    (h : p.state = .awaitSync0 ∨ p.state = .awaitSync1) :
    (gbp_pkt_processByte cap p b).2 = false := by
  rcases h with h | h <;> simp only [gbp_pkt_processByte, h] <;> split_ifs <;> rfl

/-- C6: feeding a garbage prefix that contains no adjacent sync pair
0x88 0x33 never makes the parser report a ready Packet (no call during the
prefix returns true), a valid frame fed immediately afterwards is decoded
exactly as from a clean parser, and on a second-sync-byte mismatch the
failing byte is re-tested as a candidate first sync byte: the resulting
state is the same as if the byte had been processed in `AWAIT_SYNC_0`. -/
theorem gbp_pkt_garbage_resync (cap cmd comp clo chi ka : Nat) (g payload : List Nat)
    (hg : GbpSyncFree g) (hlen : payload.length < 65536) :
    (∀ u b v, g = u ++ b :: v →
        (gbp_pkt_processByte cap (gbp_pkt_feed cap gbp_pkt_init u) b).2 = false)
    ∧ gbp_pkt_processByte cap
        (gbp_pkt_feed cap gbp_pkt_init (g ++ gbpFrameBytesNoKa cmd comp clo chi payload)) ka
        = (gbpFramePacket cap cmd comp clo chi payload, true)
    ∧ (∀ (p : GbpPkt) (b : Nat), p.state = .awaitSync1 → b ≠ GBP_SYNC_BYTE_1 →
        (gbp_pkt_processByte cap p b).1.state
          = (gbp_pkt_processByte cap { p with state := .awaitSync0 } b).1.state) := by
  refine ⟨?_, ?_, ?_⟩
  · intro u b v huv
    have hu : GbpSyncFree u := by
      rw [huv] at hg
      exact (List.chain'_append.mp hg).1
    exact gbp_pkt_sync_step_false cap _ b
      (gbp_pkt_feed_syncFree cap u gbp_pkt_init (Or.inl rfl) hu)
  · rw [gbp_pkt_feed_append]
    exact gbp_pkt_frame_run cap cmd comp clo chi ka payload _
      (gbp_pkt_feed_syncFree cap g gbp_pkt_init (Or.inl rfl) hg) hlen
  · intro p b h1 hb
    simp only [gbp_pkt_processByte, h1, if_neg hb]

/-- C6 witness: `gbp_pkt_garbage_resync` with garbage [1, 0x88, 5] (which
ends by re-testing 0x88 and then dropping to the sync search) followed by a
valid frame with payload [5, 6]. -/
theorem gbp_pkt_garbage_resync_witness :
    (GbpSyncFree [1, 0x88, 5] ∧ [5, 6].length < 65536)
    ∧ (gbp_pkt_processByte 8 (gbp_pkt_feed 8 gbp_pkt_init [1, 0x88]) 5).2 = false
    ∧ gbp_pkt_processByte 8
        (gbp_pkt_feed 8 gbp_pkt_init ([1, 0x88, 5] ++ gbpFrameBytesNoKa 1 0 12 0 [5, 6])) 0
        = (gbpFramePacket 8 1 0 12 0 [5, 6], true) := by
  have hg : GbpSyncFree [1, 0x88, 5] := by
    simp [GbpSyncFree, List.chain'_cons, GBP_SYNC_BYTE_0, GBP_SYNC_BYTE_1]
  refine ⟨⟨hg, by decide⟩, ?_, ?_⟩
  · exact (gbp_pkt_garbage_resync 8 1 0 12 0 0 [1, 0x88, 5] [5, 6] hg (by decide)).1
      [1, 0x88] 5 [] rfl
  · exact (gbp_pkt_garbage_resync 8 1 0 12 0 0 [1, 0x88, 5] [5, 6] hg (by decide)).2.1

/- ## Tile decompressor (gbp_pkt_decompressor) -/

/-- Modelled from the spec: the persistent `DecompressorState` (spec
section 3): current run mode (literal vs repeat), remaining run count, and
the last-seen repeat byte.  The implementation of the decompressor in
`gbp_pkt.c` is not in the available sources. -/
structure GbpDecomp where
  isRepeat : Bool
  count : Nat
  repeatByte : Nat
  deriving DecidableEq, Repr

/-- Modelled from the spec: initial decompressor state. -/
def gbp_decomp_init : GbpDecomp := { isRepeat := false, count := 0, repeatByte := 0 }

/-- Modelled from the spec: mode selection of a run-length control byte — the
top two bits select literal-run vs repeat-run (spec section 4.4).  The spec
does not say which two-bit patterns mean repeat; values with the high bit set
(top two bits 10 or 11) are taken as repeat runs here. -/
def gbp_pkt_ctrlIsRepeat (c : Nat) : Bool := decide (2 ≤ c / 64)

/-- Modelled from the spec: decoded run count of a control byte — the
remaining six bits encode a length stored as count minus one, giving a count
in [1, 64] (spec section 4.4). -/
def gbp_pkt_ctrlCount (c : Nat) : Nat := c % 64 + 1

/-- Modelled from the spec: one byte-by-byte step of the run-length
decompressor (spec section 4.4).  When no run is active the byte is a
control byte and produces no output; during a repeat run the next byte is
the repeat byte and is emitted `count` times; during a literal run the byte
is copied verbatim.  Run state persists so a run may span calls. -/
def gbp_pkt_decompStep (s : GbpDecomp) (b : Nat) : GbpDecomp × List Nat :=
  if s.count = 0 then
    ({ isRepeat := gbp_pkt_ctrlIsRepeat b, count := gbp_pkt_ctrlCount b,
       repeatByte := s.repeatByte }, [])
  else if s.isRepeat then
    ({ isRepeat := s.isRepeat, count := 0, repeatByte := b }, List.replicate s.count b)
  else
    ({ isRepeat := s.isRepeat, count := s.count - 1, repeatByte := s.repeatByte }, [b])

/-- Feed a chunk of compressed payload bytes to the decompressor, returning
the final run state and the concatenated decompressed output stream. -/
def gbp_pkt_decompress (s : GbpDecomp) (bs : List Nat) : GbpDecomp × List Nat :=
  bs.foldl (fun acc b =>
    ((gbp_pkt_decompStep acc.1 b).1, acc.2 ++ (gbp_pkt_decompStep acc.1 b).2)) (s, [])

/-- A 16-byte tile encoded as a single literal run: the control byte for a
literal run of the tile's length, followed by the tile bytes verbatim. -/
def gbp_pkt_compressLiteral (t : List Nat) : List Nat := (t.length - 1) :: t

theorem gbp_pkt_decompress_acc (bs : List Nat) : ∀ (s : GbpDecomp) (o : List Nat),
    bs.foldl (fun acc b =>
        ((gbp_pkt_decompStep acc.1 b).1, acc.2 ++ (gbp_pkt_decompStep acc.1 b).2)) (s, o)
      = ((gbp_pkt_decompress s bs).1, o ++ (gbp_pkt_decompress s bs).2) := by
  induction bs with
  | nil => intro s o; simp [gbp_pkt_decompress]
  | cons b rest ih =>
      intro s o
      simp only [gbp_pkt_decompress, List.foldl_cons, List.nil_append]
      rw [ih, ih (gbp_pkt_decompStep s b).1 (gbp_pkt_decompStep s b).2]
      simp [List.append_assoc]

theorem gbp_pkt_decompress_append (s : GbpDecomp) (xs ys : List Nat) :
    gbp_pkt_decompress s (xs ++ ys)
      = ((gbp_pkt_decompress (gbp_pkt_decompress s xs).1 ys).1,
         (gbp_pkt_decompress s xs).2
           ++ (gbp_pkt_decompress (gbp_pkt_decompress s xs).1 ys).2) := by
  simp only [gbp_pkt_decompress, List.foldl_append]
  rw [show (List.foldl (fun acc b =>
      ((gbp_pkt_decompStep acc.1 b).1, acc.2 ++ (gbp_pkt_decompStep acc.1 b).2)) (s, []) xs)
    = ((gbp_pkt_decompress s xs).1, (gbp_pkt_decompress s xs).2) from rfl]
  exact gbp_pkt_decompress_acc ys (gbp_pkt_decompress s xs).1 (gbp_pkt_decompress s xs).2

/-- C5: splitting a compressed payload at any byte position and feeding the
two pieces to the decompressor in two successive calls produces exactly the
decompressed stream of feeding it in one call, and the run state after the
two calls equals the one-call run state: mid-run state (mode, remaining
count, pending repeat byte) carries across the boundary and no consumed
input byte is re-read. -/
theorem gbp_pkt_decompressor_split_resumable (s : GbpDecomp) (bs : List Nat) (i : Nat) :
    gbp_pkt_decompress s bs
      = ((gbp_pkt_decompress (gbp_pkt_decompress s (bs.take i)).1 (bs.drop i)).1,
         (gbp_pkt_decompress s (bs.take i)).2
           ++ (gbp_pkt_decompress (gbp_pkt_decompress s (bs.take i)).1 (bs.drop i)).2) := by
  have h := gbp_pkt_decompress_append s (bs.take i) (bs.drop i)
  rwa [List.take_append_drop] at h

theorem gbp_pkt_decompress_literal_run (bs : List Nat) : ∀ (s : GbpDecomp),
    s.isRepeat = false → s.count = bs.length →
    gbp_pkt_decompress s bs
      = ({ isRepeat := false, count := 0, repeatByte := s.repeatByte }, bs) := by
  induction bs with
  | nil =>
      intro s h1 h2
      obtain ⟨r, c, rb⟩ := s
      simp only at h1 h2
      subst h1
      rw [h2]
      rfl
  | cons b rest ih =>
      intro s h1 h2
      obtain ⟨r, c, rb⟩ := s
      simp only at h1 h2
      subst h1 h2
      simp only [gbp_pkt_decompress, List.foldl_cons, List.nil_append]
      rw [gbp_pkt_decompress_acc]
      have hstep : gbp_pkt_decompStep ⟨false, rest.length + 1, rb⟩ b
          = (⟨false, rest.length, rb⟩, [b]) := by
        simp [gbp_pkt_decompStep, List.length_cons]
      simp only [List.length_cons]
      rw [hstep]
      have := ih ⟨false, rest.length, rb⟩ rfl rfl
      rw [show (gbp_pkt_decompress ⟨false, rest.length, rb⟩ rest) =
        ({ isRepeat := false, count := 0, repeatByte := rb }, rest) from this]
      rfl

theorem gbp_pkt_decompress_literal_unit (c : Nat) (bs : List Nat)
    (h1 : gbp_pkt_ctrlIsRepeat c = false) (h2 : gbp_pkt_ctrlCount c = bs.length) :
    gbp_pkt_decompress gbp_decomp_init (c :: bs)
      = ({ isRepeat := false, count := 0, repeatByte := 0 }, bs) := by
  have hs1 : gbp_pkt_decompStep gbp_decomp_init c
      = (⟨false, bs.length, 0⟩, []) := by
    simp [gbp_pkt_decompStep, gbp_decomp_init, h1, h2]
  simp only [gbp_pkt_decompress, List.foldl_cons, List.nil_append]
  rw [gbp_pkt_decompress_acc, hs1]
  rw [show gbp_pkt_decompress ⟨false, bs.length, 0⟩ bs
      = ({ isRepeat := false, count := 0, repeatByte := 0 }, bs) from
    gbp_pkt_decompress_literal_run bs ⟨false, bs.length, 0⟩ rfl rfl]
  rfl

/-- C4: a repeat-run unit (control byte selecting repeat mode with decoded
count `n`, followed by one byte `b`) decompresses to exactly `n` copies of
`b`; a literal-run unit with decoded count `n` copies the next `n` input
bytes verbatim, in order; and encoding any 16-byte tile as a single literal
run and decompressing reproduces the original 16 bytes exactly. -/
theorem gbp_pkt_decompressor_runs :
    (∀ (c b n : Nat), gbp_pkt_ctrlIsRepeat c = true → gbp_pkt_ctrlCount c = n →
        gbp_pkt_decompress gbp_decomp_init [c, b]
          = ({ isRepeat := true, count := 0, repeatByte := b }, List.replicate n b))
    ∧ (∀ (c : Nat) (bs : List Nat), gbp_pkt_ctrlIsRepeat c = false →
        gbp_pkt_ctrlCount c = bs.length →
        gbp_pkt_decompress gbp_decomp_init (c :: bs)
          = ({ isRepeat := false, count := 0, repeatByte := 0 }, bs))
    ∧ (∀ (t : List Nat), t.length = 16 →
        (gbp_pkt_decompress gbp_decomp_init (gbp_pkt_compressLiteral t)).2 = t) := by
  refine ⟨?_, ?_, ?_⟩
  · intro c b n h1 h2
    have hn : n ≠ 0 := by
      rw [← h2]; unfold gbp_pkt_ctrlCount; omega
    have hs1 : gbp_pkt_decompStep gbp_decomp_init c = (⟨true, n, 0⟩, []) := by
      simp [gbp_pkt_decompStep, gbp_decomp_init, h1, h2]
    have hs2 : gbp_pkt_decompStep ⟨true, n, 0⟩ b
        = (⟨true, 0, b⟩, List.replicate n b) := by
      simp [gbp_pkt_decompStep, hn]
    simp [gbp_pkt_decompress, hs1, hs2]
  · exact fun c bs h1 h2 => gbp_pkt_decompress_literal_unit c bs h1 h2
  · intro t ht
    have h1 : gbp_pkt_ctrlIsRepeat (t.length - 1) = false := by rw [ht]; decide
    have h2 : gbp_pkt_ctrlCount (t.length - 1) = t.length := by rw [ht]; decide
    rw [gbp_pkt_compressLiteral, gbp_pkt_decompress_literal_unit (t.length - 1) t h1 h2]

/-- C4 witness: `gbp_pkt_decompressor_runs` at a concrete repeat run
(control 0x83 → count 4, byte 7), a concrete literal run (control 0x01 →
count 2, bytes [9, 4]), and a concrete 16-byte tile. -/
theorem gbp_pkt_decompressor_runs_witness :
    (gbp_pkt_ctrlIsRepeat 0x83 = true ∧ gbp_pkt_ctrlCount 0x83 = 4
      ∧ gbp_pkt_ctrlIsRepeat 0x01 = false ∧ gbp_pkt_ctrlCount 0x01 = 2
      ∧ ([1, 2, 3, 4, 5, 6, 7, 8, 9, 10, 11, 12, 13, 14, 15, 16] : List Nat).length = 16)
    ∧ gbp_pkt_decompress gbp_decomp_init [0x83, 7]
        = ({ isRepeat := true, count := 0, repeatByte := 7 }, List.replicate 4 7)
    ∧ gbp_pkt_decompress gbp_decomp_init [0x01, 9, 4]
        = ({ isRepeat := false, count := 0, repeatByte := 0 }, [9, 4])
    ∧ (gbp_pkt_decompress gbp_decomp_init
        (gbp_pkt_compressLiteral [1, 2, 3, 4, 5, 6, 7, 8, 9, 10, 11, 12, 13, 14, 15, 16])).2
        = [1, 2, 3, 4, 5, 6, 7, 8, 9, 10, 11, 12, 13, 14, 15, 16] :=
  ⟨⟨by decide, by decide, by decide, by decide, by decide⟩,
   gbp_pkt_decompressor_runs.1 0x83 7 4 (by decide) (by decide),
   gbp_pkt_decompressor_runs.2.1 0x01 [9, 4] (by decide) (by decide),
   gbp_pkt_decompressor_runs.2.2 [1, 2, 3, 4, 5, 6, 7, 8, 9, 10, 11, 12, 13, 14, 15, 16]
     (by decide)⟩

/- ## Serial IO circular buffer (gbp_serial_io) -/

/-- Modelled from the spec: the FrameBuffer — a fixed-size byte array plus a
head (read) index and a fill count (spec section 3).  `gbp_serial_io.c` is
not in the available sources; the sketch supplies the storage array
`gbp_serialIO_raw_buffer` of size `GBP_BUFFER_SIZE`. -/
structure GbpSerialBuff where
  cap : Nat
  buf : List Nat
  head : Nat
  count : Nat
  overflow : Bool
  deriving DecidableEq, Repr

/-- `GBP_BUFFER_SIZE` from the sketch (line 71): the capacity of the raw
serial circular buffer. -/
def GBP_BUFFER_SIZE : Nat := 10

/-- Modelled from the spec: an empty FrameBuffer over a zeroed array. -/
def gbp_sio_init (cap : Nat) : GbpSerialBuff :=
  { cap := cap, buf := List.replicate cap 0, head := 0, count := 0, overflow := false }

/-- Modelled from the spec: interrupt-context push.  A write when full drops
the incoming (newest) byte and raises the sticky overflow flag; otherwise
the byte is written one past the last live slot (spec sections 3, 4.1, 5). -/
def gbp_sio_push (fb : GbpSerialBuff) (b : Nat) : GbpSerialBuff :=
  if fb.cap ≤ fb.count then { fb with overflow := true }
  else { fb with buf := fb.buf.set ((fb.head + fb.count) % fb.cap) b,
                 count := fb.count + 1 }

/-- Modelled from the spec: main-context pop of the oldest byte (FIFO). -/
def gbp_sio_pop (fb : GbpSerialBuff) : Option Nat × GbpSerialBuff :=
  if fb.count = 0 then (none, fb)
  else (some (fb.buf.getD (fb.head % fb.cap) 0),
        { fb with head := (fb.head + 1) % fb.cap, count := fb.count - 1 })

/-- Modelled from the spec: non-destructive peek at an offset from the
oldest byte. -/
def gbp_sio_peek (fb : GbpSerialBuff) (off : Nat) : Option Nat :=
  if off < fb.count then some (fb.buf.getD ((fb.head + off) % fb.cap) 0) else none

/-- Push a list of bytes in order. -/
def gbp_sio_pushList (fb : GbpSerialBuff) (bs : List Nat) : GbpSerialBuff :=
  bs.foldl gbp_sio_push fb

/-- Pop `n` bytes in order (stopping early on an empty buffer). -/
def gbp_sio_popN : GbpSerialBuff → Nat → List Nat × GbpSerialBuff
  | fb, 0 => ([], fb)
  | fb, n + 1 =>
      match gbp_sio_pop fb with
      | (some b, fb1) => (b :: (gbp_sio_popN fb1 n).1, (gbp_sio_popN fb1 n).2)
      | (none, fb1) => ([], fb1)

/-- The logical FIFO content of the ring buffer, oldest byte first. -/
def gbp_sio_toList (fb : GbpSerialBuff) : List Nat :=
  (List.range fb.count).map (fun i => fb.buf.getD ((fb.head + i) % fb.cap) 0)

theorem gbp_sio_push_full (fb : GbpSerialBuff) (b : Nat) (h : fb.cap ≤ fb.count) :
    gbp_sio_push fb b = { fb with overflow := true } := by
  simp [gbp_sio_push, h]

theorem gbp_sio_ringIndex_ne (head i count cap : Nat)
    (hi : i < count) (hc : count < cap) :
    (head + i) % cap ≠ (head + count) % cap := by
  intro heq
  have h1 : i ≡ count [MOD cap] := Nat.ModEq.add_left_cancel' head heq
  have h2 : i % cap = count % cap := h1
  rw [Nat.mod_eq_of_lt (by omega), Nat.mod_eq_of_lt hc] at h2
  omega

theorem gbp_sio_push_not_full (fb : GbpSerialBuff) (b : Nat)
    (hwf : fb.buf.length = fb.cap) (h : fb.count < fb.cap) :
    gbp_sio_toList (gbp_sio_push fb b) = gbp_sio_toList fb ++ [b]
    ∧ (gbp_sio_push fb b).count = fb.count + 1
    ∧ (gbp_sio_push fb b).head = fb.head
    ∧ (gbp_sio_push fb b).cap = fb.cap
    ∧ (gbp_sio_push fb b).buf.length = fb.cap
    ∧ (gbp_sio_push fb b).overflow = fb.overflow := by
  have hnotfull : ¬ fb.cap ≤ fb.count := by omega
  refine ⟨?_, by simp [gbp_sio_push, hnotfull], by simp [gbp_sio_push, hnotfull],
    by simp [gbp_sio_push, hnotfull], by simp [gbp_sio_push, hnotfull, hwf],
    by simp [gbp_sio_push, hnotfull]⟩
  simp only [gbp_sio_toList, gbp_sio_push, if_neg hnotfull, List.range_succ,
    List.map_append, List.map_cons, List.map_nil]
  congr 1
  · apply List.map_congr_left
    intro i hi
    have hi2 : i < fb.count := List.mem_range.mp hi
    have hne : (fb.head + i) % fb.cap ≠ (fb.head + fb.count) % fb.cap :=
      gbp_sio_ringIndex_ne fb.head i fb.count fb.cap hi2 h
    simp [List.getD_eq_getElem?_getD, List.getElem?_set_ne (Ne.symm hne)]
  · have hlt : (fb.head + fb.count) % fb.cap < fb.buf.length := by
      rw [hwf]
      exact Nat.mod_lt _ (by omega)
    simp [List.getD_eq_getElem?_getD, List.getElem?_set_self hlt]

theorem gbp_sio_pop_toList (fb : GbpSerialBuff) (h : 0 < fb.count) :
    gbp_sio_pop fb = (some (fb.buf.getD (fb.head % fb.cap) 0),
      { fb with head := (fb.head + 1) % fb.cap, count := fb.count - 1 })
    ∧ gbp_sio_toList fb
        = fb.buf.getD (fb.head % fb.cap) 0
          :: gbp_sio_toList { fb with head := (fb.head + 1) % fb.cap, count := fb.count - 1 } := by
  constructor
  · simp [gbp_sio_pop, Nat.pos_iff_ne_zero.mp h]
  · obtain ⟨k, hk⟩ : ∃ k, fb.count = k + 1 := ⟨fb.count - 1, by omega⟩
    simp only [gbp_sio_toList, hk, List.range_succ_eq_map, List.map_cons, List.map_map,
      Nat.add_sub_cancel]
    congr 1
    apply List.map_congr_left
    intro i _
    simp only [Function.comp_apply]
    rw [Nat.mod_add_mod]
    congr 2
    omega

theorem gbp_sio_popN_toList : ∀ (n : Nat) (fb : GbpSerialBuff), n ≤ fb.count →
    (gbp_sio_popN fb n).1 = (gbp_sio_toList fb).take n := by
  intro n
  induction n with
  | zero => intro fb _; simp [gbp_sio_popN]
  | succ m ih =>
      intro fb hn
      have hpos : 0 < fb.count := by omega
      obtain ⟨hpop, htl⟩ := gbp_sio_pop_toList fb hpos
      rw [htl]
      simp only [gbp_sio_popN, hpop, List.take_succ_cons]
      congr 1
      apply ih
      simp only
      omega

theorem gbp_sio_pushList_within : ∀ (bs : List Nat) (fb : GbpSerialBuff),
    fb.buf.length = fb.cap → fb.count + bs.length ≤ fb.cap →
    gbp_sio_toList (gbp_sio_pushList fb bs) = gbp_sio_toList fb ++ bs
    ∧ (gbp_sio_pushList fb bs).count = fb.count + bs.length
    ∧ (gbp_sio_pushList fb bs).head = fb.head
    ∧ (gbp_sio_pushList fb bs).cap = fb.cap
    ∧ (gbp_sio_pushList fb bs).buf.length = fb.cap
    ∧ (gbp_sio_pushList fb bs).overflow = fb.overflow := by
  intro bs
  induction bs with
  | nil =>
      intro fb hwf hle
      simp [gbp_sio_pushList, hwf]
  | cons b rest ih =>
      intro fb hwf hle
      simp only [List.length_cons] at hle
      have hlt : fb.count < fb.cap := by omega
      obtain ⟨h1, h2, h3, h4, h5, h6⟩ := gbp_sio_push_not_full fb b hwf hlt
      have hstep : gbp_sio_pushList fb (b :: rest)
          = gbp_sio_pushList (gbp_sio_push fb b) rest := rfl
      obtain ⟨r1, r2, r3, r4, r5, r6⟩ := ih (gbp_sio_push fb b)
        (h5.trans h4.symm) (by rw [h2, h4]; omega)
      rw [hstep]
      refine ⟨?_, by rw [r2, h2, List.length_cons]; omega, by rw [r3, h3], by rw [r4, h4],
        by rw [r5, h4], by rw [r6, h6]⟩
      rw [r1, h1, List.append_assoc]
      rfl

/-- C7: pushing `capacity + 1` bytes into an empty FrameBuffer without
popping leaves `count = capacity`, raises the overflow flag, and keeps FIFO
order of the retained bytes: popping `capacity` times yields exactly the
first `capacity` bytes pushed, in push order (overflow dropped the newest
byte); and `count ≤ capacity` is preserved by every push and pop. -/
theorem gbp_sio_overflow_fifo (cap : Nat) (bs : List Nat)
    (hcap : 0 < cap) (hlen : bs.length = cap + 1) :
    (gbp_sio_pushList (gbp_sio_init cap) bs).count = cap
    ∧ (gbp_sio_pushList (gbp_sio_init cap) bs).overflow = true
    ∧ (gbp_sio_popN (gbp_sio_pushList (gbp_sio_init cap) bs) cap).1 = bs.take cap
    ∧ (∀ (fb : GbpSerialBuff) (b : Nat), fb.count ≤ fb.cap →
        (gbp_sio_push fb b).count ≤ fb.cap ∧ (gbp_sio_pop fb).2.count ≤ fb.cap) := by
  have hsplit : bs.take cap ++ bs.drop cap = bs := List.take_append_drop cap bs
  obtain ⟨x, hx⟩ : ∃ x, bs.drop cap = [x] := by
    apply List.length_eq_one.mp
    rw [List.length_drop, hlen]
    omega
  have hinit_wf : (gbp_sio_init cap).buf.length = (gbp_sio_init cap).cap := by
    simp [gbp_sio_init]
  have htake_len : (bs.take cap).length = cap := by
    rw [List.length_take]
    omega
  obtain ⟨t1, t2, t3, t4, t5, t6⟩ := gbp_sio_pushList_within (bs.take cap)
    (gbp_sio_init cap) hinit_wf (by simp [gbp_sio_init, htake_len])
  have hfullpush : gbp_sio_pushList (gbp_sio_init cap) bs
      = { gbp_sio_pushList (gbp_sio_init cap) (bs.take cap) with overflow := true } := by
    conv_lhs => rw [← hsplit, hx]
    rw [show gbp_sio_pushList (gbp_sio_init cap) (bs.take cap ++ [x])
        = gbp_sio_push (gbp_sio_pushList (gbp_sio_init cap) (bs.take cap)) x by
      simp [gbp_sio_pushList, List.foldl_append]]
    apply gbp_sio_push_full
    rw [t2, t4, htake_len]
    simp [gbp_sio_init]
  have hcount : (gbp_sio_pushList (gbp_sio_init cap) bs).count = cap := by
    rw [hfullpush]
    show (gbp_sio_pushList (gbp_sio_init cap) (bs.take cap)).count = cap
    rw [t2, htake_len]
    simp [gbp_sio_init]
  refine ⟨hcount, by rw [hfullpush], ?_, ?_⟩
  · have htofull : gbp_sio_toList (gbp_sio_pushList (gbp_sio_init cap) bs)
        = bs.take cap := by
      rw [hfullpush]
      show gbp_sio_toList (gbp_sio_pushList (gbp_sio_init cap) (bs.take cap)) = bs.take cap
      rw [t1]
      simp [gbp_sio_toList, gbp_sio_init]
    rw [gbp_sio_popN_toList cap _ (by rw [hcount]), htofull,
      List.take_of_length_le (le_of_eq htake_len)]
  · intro fb b h
    constructor
    · by_cases hfull : fb.cap ≤ fb.count
      · rw [gbp_sio_push_full fb b hfull]
        exact h
      · simp only [gbp_sio_push, if_neg hfull]
        omega
    · by_cases hz : fb.count = 0
      · simp [gbp_sio_pop, hz, h]
      · simp only [gbp_sio_pop, if_neg hz]
        omega

/-- C7 witness: `gbp_sio_overflow_fifo` at capacity 2 with pushed bytes
[4, 5, 6], plus the count invariant instantiated at a concrete buffer. -/
theorem gbp_sio_overflow_fifo_witness :
    ((0 : Nat) < 2 ∧ ([4, 5, 6] : List Nat).length = 2 + 1)
    ∧ (gbp_sio_pushList (gbp_sio_init 2) [4, 5, 6]).count = 2
    ∧ (gbp_sio_pushList (gbp_sio_init 2) [4, 5, 6]).overflow = true
    ∧ (gbp_sio_popN (gbp_sio_pushList (gbp_sio_init 2) [4, 5, 6]) 2).1 = [4, 5]
    ∧ ((gbp_sio_push (gbp_sio_init 2) 9).count ≤ 2
        ∧ (gbp_sio_pop (gbp_sio_init 2)).2.count ≤ 2) :=
  ⟨⟨by decide, by decide⟩,
   (gbp_sio_overflow_fifo 2 [4, 5, 6] (by decide) (by decide)).1,
   (gbp_sio_overflow_fifo 2 [4, 5, 6] (by decide) (by decide)).2.1,
   (gbp_sio_overflow_fifo 2 [4, 5, 6] (by decide) (by decide)).2.2.1,
   (gbp_sio_overflow_fifo 2 [4, 5, 6] (by decide) (by decide)).2.2.2
     (gbp_sio_init 2) 9 (by decide)⟩

/- ## Timeout handling (gbp_serial_io_timeout_handler) -/

/-- Modelled from the spec: the session state the timeout watchdog governs —
accumulated idle milliseconds, an armed flag (set by a byte arrival, cleared
by a firing), and the PacketParser and TileDecompressor states that are
reset when it fires (spec sections 4.2 and 7e).  The implementation of
`gbp_serial_io_timeout_handler` is not in the available sources. -/
structure GbpSession where
  timeoutIdleMs : Nat
  timeoutArmed : Bool
  parser : GbpPkt
  decomp : GbpDecomp
  deriving DecidableEq, Repr

/-- Modelled from the spec: a byte arrival zeroes the idle time and arms the
timeout (it may fire again only after a fresh byte). -/
def gbp_session_byteArrived (s : GbpSession) : GbpSession :=
  { s with timeoutIdleMs := 0, timeoutArmed := true }

/-- Modelled from the spec: `gbp_serial_io_timeout_handler(elapsed_ms)`,
called once per polling iteration (sketch lines 185-204).  While armed it
accumulates the elapsed wall-clock delta; once the accumulated idle time
exceeds the threshold it reports a timeout exactly once, disarms itself, and
resets the PacketParser and TileDecompressor to their initial states (the
partially received packet is discarded, not surfaced as an error). -/
def gbp_serial_io_timeout_handler (threshold : Nat) (s : GbpSession) (elapsed : Nat) :
    GbpSession × Bool :=
  if s.timeoutArmed then
    if threshold < s.timeoutIdleMs + elapsed then
      ({ timeoutIdleMs := 0, timeoutArmed := false,
         parser := gbp_pkt_init, decomp := gbp_decomp_init }, true)
    else
      ({ s with timeoutIdleMs := s.timeoutIdleMs + elapsed }, false)
  else (s, false)

/-- Run a sequence of polling-iteration ticks with no intervening byte
arrival, reporting whether any tick fired. -/
def gbp_session_runTicks (threshold : Nat) (s : GbpSession) (es : List Nat) :
    GbpSession × Bool :=
  es.foldl (fun q e =>
    ((gbp_serial_io_timeout_handler threshold q.1 e).1,
     q.2 || (gbp_serial_io_timeout_handler threshold q.1 e).2)) (s, false)

/-- C9: the timeout watchdog fires at most once per idle period — a tick
whose accumulated idle time exceeds the threshold returns true, disarms the
monitor, and resets the PacketParser (to `AWAIT_SYNC_0`) and the
TileDecompressor to their initial states, discarding any partially received
frame; once unarmed, no sequence of further ticks without a fresh byte
arrival ever fires; and a byte arrival re-arms it. -/
theorem gbp_timeout_single_fire_resets (threshold : Nat) :
    (∀ (s : GbpSession) (e : Nat), s.timeoutArmed = true →
        threshold < s.timeoutIdleMs + e →
        gbp_serial_io_timeout_handler threshold s e
          = ({ timeoutIdleMs := 0, timeoutArmed := false,
               parser := gbp_pkt_init, decomp := gbp_decomp_init }, true)
          ∧ (gbp_serial_io_timeout_handler threshold s e).1.parser.state = .awaitSync0
          ∧ (gbp_serial_io_timeout_handler threshold s e).1.decomp.count = 0)
    ∧ (∀ (s : GbpSession) (es : List Nat), s.timeoutArmed = false →
        gbp_session_runTicks threshold s es = (s, false))
    ∧ (∀ (s : GbpSession), (gbp_session_byteArrived s).timeoutArmed = true
        ∧ (gbp_session_byteArrived s).timeoutIdleMs = 0) := by
  refine ⟨?_, ?_, ?_⟩
  · intro s e h1 h2
    refine ⟨?_, ?_, ?_⟩ <;>
      simp [gbp_serial_io_timeout_handler, h1, h2, gbp_pkt_init, gbp_decomp_init]
  · intro s es h
    induction es with
    | nil => rfl
    | cons e rest ih =>
        simp only [gbp_session_runTicks, List.foldl_cons,
          gbp_serial_io_timeout_handler, h]
        simpa [gbp_session_runTicks] using ih
  · intro s
    exact ⟨rfl, rfl⟩

/-- A session with a partially received frame in flight: sync matched and
the first payload byte buffered, timeout armed. -/
def gbpDemoSession : GbpSession :=
  { timeoutIdleMs := 0, timeoutArmed := true,
    parser := gbp_pkt_feed 8 gbp_pkt_init [0x88, 0x33, 0x02, 0x01, 0x04, 0x00, 0x09],
    decomp := gbp_decomp_init }

/-- A disarmed (just-fired) session. -/
def gbpIdleSession : GbpSession :=
  { timeoutIdleMs := 0, timeoutArmed := false,
    parser := gbp_pkt_init, decomp := gbp_decomp_init }

/-- C9 witness: `gbp_timeout_single_fire_resets` at threshold 500 on an
armed session with a partially received frame (sync matched, mid-payload)
and an idle tick of 600 ms, plus the never-fire part on a disarmed session. -/
theorem gbp_timeout_single_fire_resets_witness :
    (gbpDemoSession.timeoutArmed = true
      ∧ 500 < gbpDemoSession.timeoutIdleMs + 600
      ∧ gbpIdleSession.timeoutArmed = false)
    ∧ (gbp_serial_io_timeout_handler 500 gbpDemoSession 600).1.parser.state = .awaitSync0
    ∧ gbp_session_runTicks 500 gbpIdleSession [700, 800, 900] = (gbpIdleSession, false) :=
  ⟨⟨by decide, by decide, by decide⟩,
   ((gbp_timeout_single_fire_resets 500).1 gbpDemoSession 600 (by decide) (by decide)).2.1,
   (gbp_timeout_single_fire_resets 500).2.1 gbpIdleSession [700, 800, 900] (by decide)⟩

/- ## Raw packet-capture loop (gbp_packet_capture_loop, from the sketch) -/

/-- The static per-packet counters of `gbp_packet_capture_loop`
(gbp_emulator_v2.ino lines 364-367): `pktByteIndex`, `pktDataLength`
(uint16), `pktTotalCount` and `byteTotal`. -/
structure GbpCaptureState where
  pktByteIndex : Nat
  pktDataLength : Nat
  pktTotalCount : Nat
  byteTotal : Nat
  deriving DecidableEq, Repr

/-- One iteration of the for-loop body of `gbp_packet_capture_loop`
(gbp_emulator_v2.ino lines 376-416), acting on the counters and on the
remaining buffered bytes.  At `pktByteIndex == 0` the declared length is
read as `peek(4) | (peek(5) << 8) & 0xFF00`; the peeks look into the live
buffer (whose remaining content is the list), and
`gbp_serial_io_dataBuff_getByte_Peek` returns a `uint8_t`, modelled by
`% 256`.  The byte is then consumed; at
`pktByteIndex > 5 && pktByteIndex >= 9 + pktDataLength` the index resets
and the packet counter increments, otherwise the index and the byte total
increment. -/
def gbp_capture_step : GbpCaptureState × List Nat → GbpCaptureState × List Nat
  | (s, []) => (s, [])
  | (s, b :: rest) =>
      let s0 := if s.pktByteIndex = 0 then
          { s with pktDataLength :=
              ((b :: rest).getD 4 0 % 256)
                ||| ((((b :: rest).getD 5 0 % 256) <<< 8) &&& 0xFF00) }
        else s
      if 5 < s0.pktByteIndex ∧ 9 + s0.pktDataLength ≤ s0.pktByteIndex then
        ({ s0 with pktByteIndex := 0, pktTotalCount := s0.pktTotalCount + 1 }, rest)
      else
        ({ s0 with pktByteIndex := s0.pktByteIndex + 1,
                   byteTotal := s0.byteTotal + 1 }, rest)

/-- Run `k` iterations of the capture for-loop body. -/
def gbp_capture_run : Nat → GbpCaptureState × List Nat → GbpCaptureState × List Nat
  | 0, x => x
  | k + 1, x => gbp_capture_run k (gbp_capture_step x)

/-- Embedding of `gbp_packet_capture_loop` (gbp_emulator_v2.ino lines
360-419): when the entry gate `(pktByteIndex != 0 && dataBuffCount > 0) ||
(pktByteIndex == 0 && dataBuffCount >= 6)` passes, every currently buffered
byte is processed by the for-loop body; otherwise nothing happens. -/
def gbp_packet_capture_loop (s : GbpCaptureState) (buffer : List Nat) : GbpCaptureState :=
  if (s.pktByteIndex ≠ 0 ∧ 0 < buffer.length) ∨ (s.pktByteIndex = 0 ∧ 6 ≤ buffer.length)
  then (gbp_capture_run buffer.length (s, buffer)).1
  else s

theorem gbp_capture_run_succ_out : ∀ (k : Nat) (x : GbpCaptureState × List Nat),
    gbp_capture_run (k + 1) x = gbp_capture_step (gbp_capture_run k x) := by
  intro k
  induction k with
  | zero => intro x; rfl
  | succ m ih =>
      intro x
      show gbp_capture_run (m + 1) (gbp_capture_step x)
        = gbp_capture_step (gbp_capture_run (m + 1) x)
      rw [ih (gbp_capture_step x)]
      rfl

theorem gbp_capture_len_bridge (b4 b5 : Nat) (h4 : b4 < 256) (h5 : b5 < 256) :
    (b4 % 256) ||| (((b5 % 256) <<< 8) &&& 0xFF00) = b4 + 256 * b5 := by
  rw [Nat.mod_eq_of_lt h4, Nat.mod_eq_of_lt h5]
  have hmask : (b5 <<< 8) &&& 0xFF00 = b5 <<< 8 := by
    apply Nat.eq_of_testBit_eq
    intro i
    rw [Nat.testBit_and, show (0xFF00 : Nat) = 255 <<< 8 by decide,
      Nat.testBit_shiftLeft, Nat.testBit_shiftLeft]
    by_cases h8 : 8 ≤ i
    · by_cases hi : i - 8 < 8
      · have h255 : (255 : Nat).testBit (i - 8) = true := by
          rw [show (255 : Nat) = 2 ^ 8 - 1 by decide, Nat.testBit_two_pow_sub_one]
          simp [hi]
        simp [h255]
        intro _ _
        exact h8
      · have hb : b5.testBit (i - 8) = false := by
          apply Nat.testBit_lt_two_pow
          have h2 : (256 : Nat) ≤ 2 ^ (i - 8) := by
            calc (256 : Nat) = 2 ^ 8 := by norm_num
            _ ≤ 2 ^ (i - 8) := Nat.pow_le_pow_right (by norm_num) (by omega)
          omega
        simp [hb]
    · simp [h8]
  rw [hmask, Nat.shiftLeft_eq]
  have hb4 : b4 < 2 ^ 8 := by
    have h2 : (2 : Nat) ^ 8 = 256 := by norm_num
    omega
  have hor := Nat.mul_add_lt_is_or hb4 b5
  rw [Nat.mul_comm b5 (2 ^ 8), Nat.lor_comm, ← hor]
  have h2 : (2 : Nat) ^ 8 = 256 := by norm_num
  omega

theorem gbp_capture_run_mid (s : GbpCaptureState) (stream : List Nat)
    (hidx : s.pktByteIndex = 0)
    (hbytes : ∀ b ∈ stream, b < 256)
    (hlen : 10 + (stream.getD 4 0 + 256 * stream.getD 5 0) ≤ stream.length) :
    ∀ k, 1 ≤ k → k ≤ 9 + (stream.getD 4 0 + 256 * stream.getD 5 0) →
      gbp_capture_run k (s, stream)
        = ({ pktByteIndex := k,
             pktDataLength := stream.getD 4 0 + 256 * stream.getD 5 0,
             pktTotalCount := s.pktTotalCount,
             byteTotal := s.byteTotal + k }, stream.drop k) := by
  intro k
  induction k with
  | zero => intro h1 _; omega
  | succ m ih =>
      intro h1 h2
      by_cases hm : m = 0
      · subst hm
        obtain ⟨b, rest, hbr⟩ : ∃ b rest, stream = b :: rest := by
          cases stream with
          | nil => simp at hlen
          | cons b r => exact ⟨b, r, rfl⟩
        have h4lt : stream.getD 4 0 < 256 := by
          rw [List.getD_eq_getElem?_getD, List.getElem?_eq_getElem (by omega)]
          exact hbytes _ (List.getElem_mem _)
        have h5lt : stream.getD 5 0 < 256 := by
          rw [List.getD_eq_getElem?_getD, List.getElem?_eq_getElem (by omega)]
          exact hbytes _ (List.getElem_mem _)
        show gbp_capture_run 0 (gbp_capture_step (s, stream)) = _
        obtain ⟨i0, dl0, tc0, bt0⟩ := s
        simp only at hidx
        subst hidx
        rw [hbr]
        simp only [gbp_capture_run, gbp_capture_step]
        rw [← hbr]
        have hbridge : (stream.getD 4 0 % 256)
            ||| (((stream.getD 5 0 % 256) <<< 8) &&& 0xFF00)
            = stream.getD 4 0 + 256 * stream.getD 5 0 :=
          gbp_capture_len_bridge _ _ h4lt h5lt
        simp only [hbridge, if_true]
        rw [if_neg (show ¬ (5 < 0 ∧
            9 + (stream.getD 4 0 + 256 * stream.getD 5 0) ≤ 0) by omega)]
        rw [hbr]
        simp
      · have hmid := ih (by omega) (by omega)
        rw [gbp_capture_run_succ_out, hmid]
        have hmlt : m < stream.length := by omega
        rw [List.drop_eq_getElem_cons hmlt]
        simp only [gbp_capture_step]
        rw [if_neg hm]
        rw [if_neg (show ¬ (5 < m ∧
            9 + (stream.getD 4 0 + 256 * stream.getD 5 0) ≤ m) by omega)]
        simp [Nat.add_assoc]

/-- C10: in the raw packet-capture loop each captured packet is exactly
10 + L bytes, where L is the 16-bit little-endian value formed from the
bytes peeked at offsets 4 and 5 at the moment the packet's first byte is
consumed (the declared payload length): after each of the first 9 + L
consumed bytes the per-packet byte index equals the number of bytes consumed
and the packet counter is unchanged, and consuming the byte at index 9 + L
resets the index to 0 and increments the packet counter — matching the
2 sync + command + compression + 2 length + L payload + 2 checksum +
1 keepalive wire layout. -/
theorem gbp_capture_packet_length (s : GbpCaptureState) (stream : List Nat)
    (hidx : s.pktByteIndex = 0)
    (hbytes : ∀ b ∈ stream, b < 256)
    (hlen : 10 + (stream.getD 4 0 + 256 * stream.getD 5 0) ≤ stream.length) :
    (∀ k, 1 ≤ k → k ≤ 9 + (stream.getD 4 0 + 256 * stream.getD 5 0) →
        gbp_capture_run k (s, stream)
          = ({ pktByteIndex := k,
               pktDataLength := stream.getD 4 0 + 256 * stream.getD 5 0,
               pktTotalCount := s.pktTotalCount,
               byteTotal := s.byteTotal + k }, stream.drop k))
    ∧ gbp_capture_run (10 + (stream.getD 4 0 + 256 * stream.getD 5 0)) (s, stream)
        = ({ pktByteIndex := 0,
             pktDataLength := stream.getD 4 0 + 256 * stream.getD 5 0,
             pktTotalCount := s.pktTotalCount + 1,
             byteTotal := s.byteTotal + 9 + (stream.getD 4 0 + 256 * stream.getD 5 0) },
           stream.drop (10 + (stream.getD 4 0 + 256 * stream.getD 5 0)))
    ∧ (stream.length = 10 + (stream.getD 4 0 + 256 * stream.getD 5 0) →
        gbp_packet_capture_loop s stream
          = { pktByteIndex := 0,
              pktDataLength := stream.getD 4 0 + 256 * stream.getD 5 0,
              pktTotalCount := s.pktTotalCount + 1,
              byteTotal := s.byteTotal + 9
                + (stream.getD 4 0 + 256 * stream.getD 5 0) }) := by
  have hmid := gbp_capture_run_mid s stream hidx hbytes hlen
  have hfin : gbp_capture_run (10 + (stream.getD 4 0 + 256 * stream.getD 5 0)) (s, stream)
      = ({ pktByteIndex := 0,
           pktDataLength := stream.getD 4 0 + 256 * stream.getD 5 0,
           pktTotalCount := s.pktTotalCount + 1,
           byteTotal := s.byteTotal + 9 + (stream.getD 4 0 + 256 * stream.getD 5 0) },
         stream.drop (10 + (stream.getD 4 0 + 256 * stream.getD 5 0))) := by
    rw [show 10 + (stream.getD 4 0 + 256 * stream.getD 5 0)
        = (9 + (stream.getD 4 0 + 256 * stream.getD 5 0)) + 1 by omega,
      gbp_capture_run_succ_out, hmid _ (by omega) (by omega)]
    have hlt : 9 + (stream.getD 4 0 + 256 * stream.getD 5 0) < stream.length := by omega
    rw [List.drop_eq_getElem_cons hlt]
    simp only [gbp_capture_step]
    rw [if_neg (show ¬ (9 + (stream.getD 4 0 + 256 * stream.getD 5 0) = 0) by omega)]
    rw [if_pos (show 5 < 9 + (stream.getD 4 0 + 256 * stream.getD 5 0)
        ∧ 9 + (stream.getD 4 0 + 256 * stream.getD 5 0)
          ≤ 9 + (stream.getD 4 0 + 256 * stream.getD 5 0) from ⟨by omega, Nat.le_refl _⟩)]
    simp [Nat.add_assoc]
  refine ⟨hmid, hfin, ?_⟩
  intro hfull
  rw [gbp_packet_capture_loop, if_pos (Or.inr ⟨hidx, by omega⟩), hfull, hfin]

/-- A concrete captured frame for the capture loop: declared payload length
2 (bytes 0x02 0x00 at offsets 4 and 5), total 12 bytes. -/
def gbpDemoCaptureStream : List Nat :=
  [0x88, 0x33, 0x04, 0x00, 0x02, 0x00, 0xAA, 0xBB, 0x10, 0x00, 0x00, 0x05]

/-- C10 witness: `gbp_capture_packet_length` on the concrete 12-byte frame
`gbpDemoCaptureStream` (declared length 2): one pass of the capture loop
consumes exactly 10 + 2 bytes, resets the byte index and counts one packet. -/
theorem gbp_capture_packet_length_witness :
    ((⟨0, 0, 0, 0⟩ : GbpCaptureState).pktByteIndex = 0
      ∧ (∀ b ∈ gbpDemoCaptureStream, b < 256)
      ∧ 10 + (gbpDemoCaptureStream.getD 4 0 + 256 * gbpDemoCaptureStream.getD 5 0)
          ≤ gbpDemoCaptureStream.length)
    ∧ gbp_packet_capture_loop ⟨0, 0, 0, 0⟩ gbpDemoCaptureStream
        = { pktByteIndex := 0, pktDataLength := 2, pktTotalCount := 1, byteTotal := 11 } :=
  ⟨⟨rfl, by decide, by decide⟩,
   ((gbp_capture_packet_length ⟨0, 0, 0, 0⟩ gbpDemoCaptureStream rfl (by decide)
      (by decide)).2.2 (by decide)).trans (by decide)⟩
